import Mathlib

/-!
# Verification of the idle-resource-loader library

A shallow embedding of `src/index.ts`, `src/types.ts` and the core module
(`loaders.ts` / `core.ts`) of the idle-resource-loader repository, together
with proofs about its URL validation, batch chunking, timeout reporting,
error reporting and idle-scheduling logic.

Conventions of the embedding:
* JS strings are `String`; runtime values that may fail the
  `typeof resource !== 'string'` check are `ResourceInput`.
* Promise-based code is modelled by explicit result values: a fallible
  computation returns `Except ErrorV _`; the settlement behaviour of an
  underlying fetch future is an environment parameter `LoadEnv`.
* The mutable idle queue and processing flag are threaded explicitly through
  a `SchedState`; host events (idle slot firing, the hidden-page backoff
  timer firing, an enqueue from the public entry point) are transitions on
  that state, and `Reachable` closes them over the initial state.
-/

namespace IdleResourceLoader

/-- Failure values produced by loads and by the timeout guard.
`timeoutErr url` models `new Error("Timeout: " + url)`. -/
inductive ErrorV where
  | timeoutErr (url : String)
  | loadFail (url : String)
  | custom (msg : String)
  deriving DecidableEq, Repr

/-- Observable behaviour of a user-supplied onError callback: it either
returns normally or throws. -/
inductive CbResult where
  | ok
  | threw
  deriving DecidableEq, Repr

/-- User callback `(url, error) => …`, modelled by its observable behaviour. -/
def Callback : Type := String → ErrorV → CbResult

/-- Model of `LoadOptions` of types.ts: all fields optional (JS `undefined` is `none`). -/
structure LoadOptions where
  batchSize : Option Int
  timeout : Option Nat
  onError : Option Callback

/-- Model of `LoadStrategy` of types.ts. -/
inductive LoadStrategy where
  | immediate
  | idle

/-- Model of `LoadResourcesOptions` of types.ts. -/
structure LoadResourcesOptions where
  strategy : Option LoadStrategy
  batchSize : Option Int
  timeout : Option Nat
  onError : Option Callback

/-! ## String utilities used by resolveResourceUrl (src/index.ts) -/

/-- Whitespace characters removed by JS `String.prototype.trim` (ASCII part:
space, tab, line feed, carriage return, vertical tab, form feed). -/
def isJsWhitespace (c : Char) : Bool :=
  c = ' ' || c = '\t' || c = '\n' || c = '\r' || c = Char.ofNat 11 || c = Char.ofNat 12

/-- JS `String.prototype.trim`. -/
def jsTrim (s : String) : String :=
  ⟨((s.data.dropWhile isJsWhitespace).reverse.dropWhile isJsWhitespace).reverse⟩

/-- Does the haystack contain the needle as a contiguous substring
(JS `String.prototype.includes`)? -/
def hasSubstringAux : List Char → List Char → Bool
  | [], needle => needle.isEmpty
  | c :: t, needle => List.isPrefixOf needle (c :: t) || hasSubstringAux t needle

/-- Test `trimmed.includes("://")`. -/
def containsSchemeSep (s : String) : Bool :=
  hasSubstringAux s.data "://".data

/-- Case-insensitive prefix test, for the `/i` regexes. -/
def isPrefixCI (p s : String) : Bool :=
  List.isPrefixOf (p.data.map Char.toLower) (s.data.map Char.toLower)

/-- The regex `^(javascript|data|file|ftp|blob):` with the `i` flag. -/
def isDangerousScheme (s : String) : Bool :=
  isPrefixCI "javascript:" s || isPrefixCI "data:" s || isPrefixCI "file:" s ||
    isPrefixCI "ftp:" s || isPrefixCI "blob:" s

/-- The case-sensitive regex testing for a `http://` or `https://` prefix. -/
def isAbsoluteHttpUrl (s : String) : Bool :=
  List.isPrefixOf "http://".data s.data || List.isPrefixOf "https://".data s.data

/-- Membership in the character class `[a-zA-Z0-9\-._~:/?#[\]@!$&'()*+,;=%]`
(the punctuation is listed by character code). -/
def isAllowedUrlChar (c : Char) : Bool :=
  c.isAlpha || c.isDigit ||
    [Char.ofNat 45, Char.ofNat 46, Char.ofNat 95, Char.ofNat 126, Char.ofNat 58,
     Char.ofNat 47, Char.ofNat 63, Char.ofNat 35, Char.ofNat 91, Char.ofNat 93,
     Char.ofNat 64, Char.ofNat 33, Char.ofNat 36, Char.ofNat 38, Char.ofNat 39,
     Char.ofNat 40, Char.ofNat 41, Char.ofNat 42, Char.ofNat 43, Char.ofNat 44,
     Char.ofNat 59, Char.ofNat 61, Char.ofNat 37].contains c

/-- The `+`-quantified anchored character class of the basic format check:
the string is nonempty and every character is allowed. -/
def hasRestrictedCharset (s : String) : Bool :=
  !s.data.isEmpty && s.data.all isAllowedUrlChar

/-- A runtime resource argument: a string, or any non-string value
(`null`, `undefined`, a number, an object, …). -/
inductive ResourceInput where
  | str (s : String)
  | nonString

/-- Model of `resolveResourceUrl` of src/index.ts. The `!resource` guard is true for
non-strings of interest (`null`/`undefined`) and for the empty string. -/
def resolveResourceUrl (r : ResourceInput) : Option String :=
  match r with
  | .nonString => none
  | .str s =>
    if s = "" then none
    else
      let trimmed := jsTrim s
      if trimmed = "" then none
      else if isDangerousScheme trimmed then none
      else if containsSchemeSep trimmed && !isAbsoluteHttpUrl trimmed then none
      else if !hasRestrictedCharset trimmed then none
      else some trimmed

/-- Model of `prepareResourcesForLoading` of src/index.ts (map then filter of the
non-null results, i.e. `filterMap`). -/
def prepareResourcesForLoading (rs : List ResourceInput) : List String :=
  rs.filterMap resolveResourceUrl

/-! ### Spec-side shape predicates (from the specification's wording) and the
code's own acceptance predicate, kept separate so they can be compared -/

/-- Spec shape: a protocol-relative URL — a reference beginning with `//`. -/
def isProtocolRelativeUrl (s : String) : Bool :=
  List.isPrefixOf "//".data s.data

/-- Characters of the first path segment: everything before the first `/`. -/
def firstPathSegment (s : String) : List Char :=
  s.data.takeWhile (fun c => c ≠ '/')

/-- Spec shape: a relative or root-relative path — a reference whose first
path segment carries no scheme colon (RFC 3986 `path-noscheme` /
`path-absolute`; a root-relative path starts with `/`, so its first segment
is empty). A reference such as `mailto:alice@example.com` or `tel:12345` has
a colon in its first segment and is therefore not a relative path but a
scheme-bearing URL. -/
def isRelativePathUrl (s : String) : Bool :=
  !(firstPathSegment s).contains ':'

/-- Spec-side validity of a (trimmed) descriptor, following the claim's
wording: no dangerous scheme, one of the three named URL shapes (absolute
http/https, protocol-relative, relative/root-relative path), and the
restricted character set (which requires nonemptiness). -/
def validDescriptorSpec (s : String) : Bool :=
  !isDangerousScheme s &&
    (isAbsoluteHttpUrl s || isProtocolRelativeUrl s || isRelativePathUrl s) &&
    hasRestrictedCharset s

/-- The acceptance condition resolveResourceUrl actually implements on the
trimmed string: no dangerous scheme, then either an absolute `http://` or
`https://` URL or no `://` separator anywhere at all (so scheme-bearing URLs
without `://`, such as `mailto:` or `tel:` forms, are accepted too), over
the restricted character set. -/
def validDescriptorCode (s : String) : Bool :=
  !isDangerousScheme s && (isAbsoluteHttpUrl s || !containsSchemeSep s) &&
    hasRestrictedCharset s

/-! ## TimeoutGuard and single-asset loading (core module) -/

/-- Settlement behaviour of the underlying fetch future for a URL:
it resolves at time `t`, rejects at time `t`, or never settles. -/
inductive LoadBehavior where
  | resolves (t : Nat)
  | rejects (t : Nat) (e : ErrorV)
  | never

/-- The host fetch layer: each URL's future has a fixed behaviour. -/
def LoadEnv : Type := String → LoadBehavior

/-- Whether the future settles strictly before the timeout fires. -/
def settlesWithin (b : LoadBehavior) (timeoutMs : Nat) : Bool :=
  match b with
  | .resolves t => t < timeoutMs
  | .rejects t _ => t < timeoutMs
  | .never => false

/-- The `Promise.race` of the load future against the `timeoutMs` timer inside
loadSingleAsset. Both code branches (the AbortController-driven one and the
plain-timer fallback) have this observable result: whichever settles first
wins, and on timer victory the race rejects with the timeout failure carrying
the URL. -/
def raceResult (url : String) (b : LoadBehavior) (timeoutMs : Nat) : Except ErrorV Unit :=
  match b with
  | .resolves t => if t < timeoutMs then .ok () else .error (.timeoutErr url)
  | .rejects t e => if t < timeoutMs then .error e else .error (.timeoutErr url)
  | .never => .error (.timeoutErr url)

/-! ## ErrorReporter (handleError of the core module) -/

/-- Entries written to the diagnostic channel (`console.warn`). -/
inductive LogEntry where
  | failureLog (url : String) (e : ErrorV)
  | callbackFaultLog
  | immediateLoadFailedLog
  deriving DecidableEq

/-- The observable effects of one `handleError` invocation. -/
structure HandleErrorResult where
  logs : List LogEntry
  callbackCalls : List (String × ErrorV)

/-- Model of `handleError(error, url, userCallback)`: log unconditionally, then invoke
the user callback (with `(url, error)`) inside a try/catch whose catch only
logs. The result type is `Except` so that an escaping exception would be
visible as `.error`; the translation of the try/catch returns `.ok` in every
branch. -/
def handleErrorE (e : ErrorV) (url : String) (cb : Option Callback) :
    Except ErrorV HandleErrorResult :=
  match cb with
  | none => .ok ⟨[.failureLog url e], []⟩
  | some f =>
    match f url e with
    | .ok => .ok ⟨[.failureLog url e], [(url, e)]⟩
    | .threw => .ok ⟨[.failureLog url e, .callbackFaultLog], [(url, e)]⟩

/-- Trace of one `loadSingleAsset` call: the `handleError` invocations it
makes (as `(error, url)` pairs, in order) and its own outcome (it rethrows
after reporting, so callers see the rejection). -/
structure SingleLoadTrace where
  handleErrorCalls : List (ErrorV × String)
  result : Except ErrorV Unit

/-- Model of `loadSingleAsset(url, timeout, options)`: race the load against the
timeout; on success return; on any failure call `handleError` exactly once
(with `options.onError`) and rethrow the error. -/
def loadSingleAsset (env : LoadEnv) (url : String) (timeoutMs : Nat)
    (o : LoadOptions) : SingleLoadTrace :=
  match raceResult url (env url) timeoutMs with
  | .ok _ => ⟨[], .ok ()⟩
  | .error e => ⟨[(e, url)], .error e⟩

/-! ## BatchLoader (getOptimalBatchSize / loadAssetsBatch) -/

/-- Constant `MAX_CONCURRENT` of getOptimalBatchSize. -/
def MAX_CONCURRENT : Int := 2

/-- Constant `DEFAULT_SIZE` of getOptimalBatchSize. -/
def DEFAULT_SIZE : Int := 1

/-- Model of `getOptimalBatchSize(requestedSize)`. -/
def getOptimalBatchSize (requestedSize : Int) : Int :=
  if requestedSize > 0 then min requestedSize MAX_CONCURRENT else DEFAULT_SIZE

/-- The chunking loop of loadAssetsBatch
(`for (let i = 0; i < urls.length; i += sz) batch = urls.slice(i, i + sz)`),
fuel-bounded: `l.length` fuel suffices whenever `1 ≤ sz`, which
getOptimalBatchSize guarantees. -/
def chunkListAux {α : Type} : Nat → Nat → List α → List (List α)
  | 0, _, _ => []
  | _, _, [] => []
  | fuel + 1, sz, x :: xs => (x :: xs).take sz :: chunkListAux fuel sz ((x :: xs).drop sz)

/-- Partition a list into consecutive chunks of stride `sz`. -/
def chunkList {α : Type} (sz : Nat) (l : List α) : List (List α) :=
  chunkListAux l.length sz l

/-- The concurrency actually used by loadAssetsBatch: destructuring default
`batchSize = 1`, then `getOptimalBatchSize`. -/
def effectiveBatchSize (o : LoadOptions) : Nat :=
  (getOptimalBatchSize (o.batchSize.getD 1)).toNat

/-- The chunks loadAssetsBatch iterates over. -/
def batchChunks (o : LoadOptions) (urls : List String) : List (List String) :=
  chunkList (effectiveBatchSize o) urls

/-- Model of `loadAssetsBatch(urls, options)`: per-chunk traces; each chunk is awaited
through `Promise.allSettled`, which records every member's outcome and never
rejects, before the loop continues to the next chunk. Destructuring default
`timeout = 15000`. -/
def loadAssetsBatch (env : LoadEnv) (urls : List String) (o : LoadOptions) :
    List (List SingleLoadTrace) :=
  (batchChunks o urls).map fun ch =>
    ch.map fun u => loadSingleAsset env u (o.timeout.getD 15000) o

/-- loadAssetsBatch as a fallible computation. Its only rejection sources are
the per-load promises, all of which are consumed by the `Promise.allSettled`
barrier (their outcomes are stored in the traces), so the translation yields
`.ok` unconditionally. -/
def loadAssetsBatchE (env : LoadEnv) (urls : List String) (o : LoadOptions) :
    Except ErrorV (List (List SingleLoadTrace)) :=
  .ok (loadAssetsBatch env urls o)

/-- All `handleError` invocations made during one loadAssetsBatch call. -/
def batchHandleErrorCalls (env : LoadEnv) (urls : List String) (o : LoadOptions) :
    List (ErrorV × String) :=
  ((loadAssetsBatch env urls o).flatten.map SingleLoadTrace.handleErrorCalls).flatten

/-! ### Event trace of a loadAssetsBatch call

A chunk's loads are all launched inside the granted turn, then the
`allSettled` barrier is awaited: every settlement of chunk `i` is observed
before any load of chunk `i + 1` is launched. -/

/-- Events of a batch execution, tagged with the chunk ordinal. -/
inductive Ev where
  | start (chunk : Nat) (url : String)
  | settle (chunk : Nat) (url : String) (r : Except ErrorV Unit)

/-- The chunk ordinal an event belongs to. -/
def evChunkIdx : Ev → Nat
  | .start i _ => i
  | .settle i _ _ => i

/-- Is the event a load launch? -/
def evIsStart : Ev → Bool
  | .start _ _ => true
  | _ => false

/-- Is the event a load settlement? -/
def evIsSettle : Ev → Bool
  | .settle _ _ _ => true
  | _ => false

/-- Events of one chunk: all launches, then (after the allSettled barrier)
all settlements with their outcomes. -/
def chunkSegment (env : LoadEnv) (o : LoadOptions) (i : Nat) (ch : List String) : List Ev :=
  ch.map (Ev.start i) ++
    ch.map fun u => Ev.settle i u (loadSingleAsset env u (o.timeout.getD 15000) o).result

/-- Events of the sequential chunk loop, starting at chunk ordinal `i`. -/
def batchEventsAux (env : LoadEnv) (o : LoadOptions) : Nat → List (List String) → List Ev
  | _, [] => []
  | i, ch :: rest => chunkSegment env o i ch ++ batchEventsAux env o (i + 1) rest

/-- The full event trace of `loadAssetsBatch env urls o`. -/
def batchEvents (env : LoadEnv) (urls : List String) (o : LoadOptions) : List Ev :=
  batchEventsAux env o 0 (batchChunks o urls)

/-- URLs of the launch events, in order. -/
def startUrls (evs : List Ev) : List String :=
  evs.filterMap fun e => match e with | .start _ u => some u | _ => none

/-- URLs of the settlement events, in order. -/
def settleUrls (evs : List Ev) : List String :=
  evs.filterMap fun e => match e with | .settle _ u _ => some u | _ => none

/-! ## IdleScheduler (idleQueue / isIdleProcessing / scheduleIdleWork /
processIdleQueue of the core module) -/

/-- Model of `IdleTask` of types.ts: a queued group of URLs sharing one options set. -/
structure IdleTask where
  urls : List String
  options : LoadOptions

/-- The scheduler's shared mutable state, plus counters for the host requests
that are outstanding: `pendingSlot` counts requested-but-not-yet-fired idle
slots (or fallback timers) and `pendingBackoff` counts outstanding 1000 ms
hidden-page retry timers. -/
structure SchedState where
  queue : List IdleTask
  flag : Bool
  pendingSlot : Nat
  pendingBackoff : Nat

/-- Module-load state: empty queue, flag down, nothing requested. -/
def initState : SchedState := ⟨[], false, 0, 0⟩

/-- Model of `scheduleIdleWork()`: return early if the flag is set or the queue is
empty; otherwise raise the flag and request one idle slot (via
requestIdleCallback when available, else the ~50 ms setTimeout fallback —
either way a single slot request). -/
def scheduleIdleWork (s : SchedState) : SchedState :=
  if s.flag || s.queue.isEmpty then s
  else { s with flag := true, pendingSlot := s.pendingSlot + 1 }

/-- Model of `addIdleTask(urls, options)`: append a group to the queue tail. -/
def addIdleTask (s : SchedState) (t : IdleTask) : SchedState :=
  { s with queue := s.queue ++ [t] }

/-- The idle branch of loadResources: `addIdleTask` then `scheduleIdleWork`. -/
def enqueueIdle (s : SchedState) (t : IdleTask) : SchedState :=
  scheduleIdleWork (addIdleTask s t)

/-- Constant `MIN_TIME_REMAINING` of TIME_SLICE_CONFIG. -/
def MIN_TIME_REMAINING : Int := 12

/-- Constant `ESTIMATED_PROCESS_TIME` of TIME_SLICE_CONFIG. -/
def ESTIMATED_PROCESS_TIME : Int := 3

/-- Constant `MAX_BATCH_SIZE` of TIME_SLICE_CONFIG. -/
def MAX_BATCH_SIZE : Int := 2

/-- Model of `calculateOptimalBatchSize(timeRemaining)`. -/
def calculateOptimalBatchSize (timeRemaining : Int) : Int :=
  let availableTime := timeRemaining - MIN_TIME_REMAINING
  if availableTime ≤ 0 then 0
  else min (availableTime / ESTIMATED_PROCESS_TIME) MAX_BATCH_SIZE

/-- Fuel bound for the processIdleQueue while-loop: every iteration either
consumes a URL or drops an emptied group, so this measure only decreases. -/
def queueMeasure (q : List IdleTask) : Nat :=
  (q.map fun t => t.urls.length + 1).sum

/-- The while-loop of processIdleQueue: while fewer than `c` URLs have been
dispatched and the queue is non-empty, shift the front group, shift its front
URL, dispatch it when truthy, and re-append the group to the tail when URLs
remain. Returns the dispatched `(url, options)` pairs in dispatch order and
the queue left behind. -/
def drainAux : Nat → Nat → Nat → List IdleTask →
    List (String × LoadOptions) × List IdleTask
  | 0, _, _, q => ([], q)
  | fuel + 1, c, processed, q =>
    if processed < c then
      match q with
      | [] => ([], [])
      | t :: rest =>
        match t.urls with
        | [] => drainAux fuel c processed rest
        | u :: us =>
          let rest2 := if us.isEmpty then rest else rest ++ [⟨us, t.options⟩]
          if u = "" then drainAux fuel c processed rest2
          else
            let r := drainAux fuel c (processed + 1) rest2
            ((u, t.options) :: r.1, r.2)
    else ([], q)

/-- One cycle's pop loop with candidate count `c`. -/
def drainCycle (c : Nat) (q : List IdleTask) :
    List (String × LoadOptions) × List IdleTask :=
  drainAux (queueMeasure q) c 0 q

/-- The fixed hidden-page backoff delay (`setTimeout(() => scheduleIdleWork(), 1000)`). -/
def HIDDEN_RETRY_DELAY : Nat := 1000

/-- Result of one granted processing cycle: the state afterwards, the
dispatched loads, and the delays of backoff timers scheduled by the cycle. -/
structure CycleResult where
  state : SchedState
  dispatched : List (String × LoadOptions)
  backoffTimers : List Nat

/-- Model of `processIdleQueue(deadline)`, entered when a granted slot or fallback
timer fires. `hidden` is the page-visibility signal read by
shouldPauseIdleLoading; `timeRemaining` is `deadline.timeRemaining()`. -/
def processIdleQueue (s : SchedState) (hidden : Bool) (timeRemaining : Int) : CycleResult :=
  if hidden then
    ⟨{ s with flag := false, pendingBackoff := s.pendingBackoff + 1 }, [],
      [HIDDEN_RETRY_DELAY]⟩
  else
    let c := (calculateOptimalBatchSize timeRemaining).toNat
    if c = 0 || s.queue.isEmpty then
      let s1 := { s with flag := false }
      ⟨if s1.queue.isEmpty then s1 else scheduleIdleWork s1, [], []⟩
    else
      let r := drainCycle c s.queue
      let s1 := { s with queue := r.2, flag := false }
      ⟨if s1.queue.isEmpty then s1 else scheduleIdleWork s1, r.1, []⟩

/-- A requested slot fires: the outstanding request is consumed and
processIdleQueue runs. -/
def slotFire (s : SchedState) (hidden : Bool) (timeRemaining : Int) : CycleResult :=
  processIdleQueue { s with pendingSlot := s.pendingSlot - 1 } hidden timeRemaining

/-- A hidden-page backoff timer fires: it just calls `scheduleIdleWork()`. -/
def backoffFire (s : SchedState) : SchedState :=
  scheduleIdleWork { s with pendingBackoff := s.pendingBackoff - 1 }

/-- States the scheduler can reach from module load: enqueues from the public
entry point (whose URL lists are non-empty by the `validUrls.length === 0`
early return), firings of an outstanding slot, and firings of an outstanding
backoff timer. -/
inductive Reachable : SchedState → Prop where
  | init : Reachable initState
  | enqueue {s : SchedState} {t : IdleTask} :
      Reachable s → t.urls ≠ [] → Reachable (enqueueIdle s t)
  | slot {s : SchedState} {hidden : Bool} {tr : Int} :
      Reachable s → 1 ≤ s.pendingSlot → Reachable (slotFire s hidden tr).state
  | backoff {s : SchedState} :
      Reachable s → 1 ≤ s.pendingBackoff → Reachable (backoffFire s)

/-- Resolution `options.timeout || 15000` of the idle dispatch (JS `||`: both
`undefined` and `0` fall back to 15000). -/
def idleTimeoutOf (o : LoadOptions) : Nat :=
  match o.timeout with
  | none => 15000
  | some n => if n = 0 then 15000 else n

/-- The fire-and-forget dispatch of one URL inside processIdleQueue:
`loadSingleAsset(url, options.timeout || 15000, options).catch(e =>
handleError(e, url, options.onError))`. Returns the `handleError`
invocations this produces: the ones made inside loadSingleAsset, followed by
the one made by the `.catch` handler when the rethrown rejection arrives. -/
def idleDispatch (env : LoadEnv) (url : String) (o : LoadOptions) :
    List (ErrorV × String) :=
  let t := loadSingleAsset env url (idleTimeoutOf o) o
  t.handleErrorCalls ++ (match t.result with | .error e => [(e, url)] | .ok _ => [])

/-! ## Public entry point (loadResources of src/index.ts) -/

/-- The `resources` argument: a single value or an array. -/
inductive ResourceOrList where
  | single (r : ResourceInput)
  | list (rs : List ResourceInput)

/-- Normalization `Array.isArray(resources) ? resources : [resources]`. -/
def resourceArray : ResourceOrList → List ResourceInput
  | .single r => [r]
  | .list rs => rs

/-- The option record handed to the strategies: destructuring default
`batchSize = 1` applied, strategy stripped. -/
def toLoadOptions (o : LoadResourcesOptions) : LoadOptions :=
  ⟨some (o.batchSize.getD 1), o.timeout, o.onError⟩

/-- Model of `loadResources(resources, options)`: validate and trim the input, return
early when nothing is valid, then either enqueue into the idle scheduler or
run the batch loader with a `.catch` that only logs. The `Except` result
records that no exception escapes to the caller. -/
def loadResources (res : ResourceOrList) (o : LoadResourcesOptions) (env : LoadEnv)
    (s : SchedState) :
    Except ErrorV (SchedState × List (List SingleLoadTrace) × List LogEntry) :=
  let validUrls := prepareResourcesForLoading (resourceArray res)
  if validUrls.isEmpty then .ok (s, [], [])
  else
    match o.strategy.getD .immediate with
    | .idle => .ok (enqueueIdle s ⟨validUrls, toLoadOptions o⟩, [], [])
    | .immediate =>
      match loadAssetsBatchE env validUrls (toLoadOptions o) with
      | .ok traces => .ok (s, traces, [])
      | .error _ => .ok (s, [], [.immediateLoadFailedLog])

/-! ## Spec-side descriptions used in theorem statements -/

/-- What one cycle pops from a group it visits: the front URL with the
group's options. -/
def popOf (t : IdleTask) : String × LoadOptions :=
  (t.urls.headD "", t.options)

/-- The re-enqueued remainder of a visited group: the group minus its front
URL when that remainder is non-empty, nothing otherwise. -/
def reEnqueueOf (t : IdleTask) : Option IdleTask :=
  if t.urls.tail.isEmpty then none else some ⟨t.urls.tail, t.options⟩

/-- Queues produced by the public entry point: every group holds at least one
URL and no group holds an empty-string URL (resolveResourceUrl never returns
one). -/
def WellFormedQueue (q : List IdleTask) : Prop :=
  ∀ t ∈ q, t.urls ≠ [] ∧ ∀ u ∈ t.urls, u ≠ ""

/-- The Processing-Flag invariant: at most one idle slot (or fallback timer)
is outstanding, and the flag is up exactly while one is. -/
def SlotInv (s : SchedState) : Prop :=
  s.pendingSlot ≤ 1 ∧ (s.flag = true ↔ s.pendingSlot = 1)

/-! ### Concrete fixtures for witnesses and counterexamples -/

/-- Options fixture: `batchSize 1`, default timeout, no callback. -/
def oEx : LoadOptions := ⟨some 1, none, none⟩

/-- Options fixture: `batchSize 2`, default timeout, no callback. -/
def oEx2 : LoadOptions := ⟨some 2, none, none⟩

/-- A fetch layer in which no future ever settles (every load times out). -/
def envNever : LoadEnv := fun _ => LoadBehavior.never

/-- Input fixture mixing two valid descriptors and a dangerous one. -/
def rsEx : List ResourceInput :=
  [.str "a.jpg", .str "javascript:alert(1)", .str "b.jpg"]

/-! ## Lemmas: batch sizing and chunking -/

theorem getOptimalBatchSize_eq_min_max (B : Int) :
    getOptimalBatchSize B = min (max B 1) 2 := by
  unfold getOptimalBatchSize MAX_CONCURRENT DEFAULT_SIZE
  split_ifs with h <;> omega

theorem one_le_getOptimalBatchSize (B : Int) : 1 ≤ getOptimalBatchSize B := by
  unfold getOptimalBatchSize MAX_CONCURRENT DEFAULT_SIZE
  split_ifs with h <;> omega

theorem one_le_effectiveBatchSize (o : LoadOptions) : 1 ≤ effectiveBatchSize o := by
  have h := one_le_getOptimalBatchSize (o.batchSize.getD 1)
  unfold effectiveBatchSize
  omega

theorem chunkListAux_flatten {α : Type} (sz : Nat) (hsz : 1 ≤ sz) :
    ∀ (fuel : Nat) (l : List α), l.length ≤ fuel →
      (chunkListAux fuel sz l).flatten = l := by
  intro fuel
  induction fuel with
  | zero =>
    intro l hl
    have hnil : l = [] := List.eq_nil_of_length_eq_zero (Nat.le_zero.mp hl)
    subst hnil
    rfl
  | succ n ih =>
    intro l hl
    cases l with
    | nil => rfl
    | cons x xs =>
      have hd := List.length_drop sz (x :: xs)
      have hlen : ((x :: xs).drop sz).length ≤ n := by
        simp only [List.length_cons] at hl hd
        omega
      simp only [chunkListAux, List.flatten_cons, ih _ hlen, List.take_append_drop]

theorem chunkListAux_mem {α : Type} (sz : Nat) (hsz : 1 ≤ sz) :
    ∀ (fuel : Nat) (l : List α) (ch : List α), ch ∈ chunkListAux fuel sz l →
      ch ≠ [] ∧ ch.length ≤ sz := by
  intro fuel
  induction fuel with
  | zero => intro l ch h; simp [chunkListAux] at h
  | succ n ih =>
    intro l ch h
    cases l with
    | nil => simp [chunkListAux] at h
    | cons x xs =>
      simp only [chunkListAux, List.mem_cons] at h
      rcases h with rfl | h
      · obtain ⟨m, rfl⟩ : ∃ m, sz = m + 1 := ⟨sz - 1, by omega⟩
        refine ⟨by simp, ?_⟩
        have := List.length_take_le (m + 1) (x :: xs)
        omega
      · exact ih _ _ h

theorem batchChunks_flatten (o : LoadOptions) (urls : List String) :
    (batchChunks o urls).flatten = urls :=
  chunkListAux_flatten _ (one_le_effectiveBatchSize o) _ _ le_rfl

/-! ## Lemmas: the batch event trace -/

theorem chunkSegment_idx (env : LoadEnv) (o : LoadOptions) (i : Nat) (ch : List String) :
    ∀ e ∈ chunkSegment env o i ch, evChunkIdx e = i := by
  intro e he
  simp only [chunkSegment, List.mem_append, List.mem_map] at he
  rcases he with ⟨u, _, rfl⟩ | ⟨u, _, rfl⟩ <;> rfl

theorem batchEventsAux_idx_ge (env : LoadEnv) (o : LoadOptions) :
    ∀ (chs : List (List String)) (n : Nat) (e : Ev),
      e ∈ batchEventsAux env o n chs → n ≤ evChunkIdx e := by
  intro chs
  induction chs with
  | nil => intro n e he; simp [batchEventsAux] at he
  | cons ch rest ih =>
    intro n e he
    simp only [batchEventsAux, List.mem_append] at he
    rcases he with h | h
    · exact (chunkSegment_idx env o n ch e h).ge
    · have := ih (n + 1) e h
      omega

theorem batchEventsAux_pairwise (env : LoadEnv) (o : LoadOptions) :
    ∀ (chs : List (List String)) (n : Nat),
      List.Pairwise (fun a b => evChunkIdx a ≤ evChunkIdx b)
        (batchEventsAux env o n chs) := by
  intro chs
  induction chs with
  | nil => intro n; simp [batchEventsAux]
  | cons ch rest ih =>
    intro n
    simp only [batchEventsAux]
    rw [List.pairwise_append]
    refine ⟨List.pairwise_of_forall_mem_list ?_, ih (n + 1), ?_⟩
    · intro a ha b hb
      rw [chunkSegment_idx env o n ch a ha, chunkSegment_idx env o n ch b hb]
    · intro a ha b hb
      rw [chunkSegment_idx env o n ch a ha]
      have := batchEventsAux_idx_ge env o rest (n + 1) b hb
      omega

theorem startUrls_append (l1 l2 : List Ev) :
    startUrls (l1 ++ l2) = startUrls l1 ++ startUrls l2 :=
  List.filterMap_append l1 l2 _

theorem settleUrls_append (l1 l2 : List Ev) :
    settleUrls (l1 ++ l2) = settleUrls l1 ++ settleUrls l2 :=
  List.filterMap_append l1 l2 _

theorem startUrls_chunkSegment (env : LoadEnv) (o : LoadOptions) (i : Nat)
    (ch : List String) : startUrls (chunkSegment env o i ch) = ch := by
  rw [chunkSegment, startUrls_append]
  have h1 : startUrls (ch.map (Ev.start i)) = ch := by
    induction ch with
    | nil => rfl
    | cons u us ih => simpa [startUrls, List.filterMap_cons] using ih
  have h2 : startUrls (ch.map fun u =>
      Ev.settle i u (loadSingleAsset env u (o.timeout.getD 15000) o).result) = [] := by
    induction ch with
    | nil => rfl
    | cons u us ih => simpa [startUrls, List.filterMap_cons] using ih
  rw [h1, h2, List.append_nil]

theorem settleUrls_chunkSegment (env : LoadEnv) (o : LoadOptions) (i : Nat)
    (ch : List String) : settleUrls (chunkSegment env o i ch) = ch := by
  rw [chunkSegment, settleUrls_append]
  have h1 : settleUrls (ch.map (Ev.start i)) = [] := by
    induction ch with
    | nil => rfl
    | cons u us ih => simpa [settleUrls, List.filterMap_cons] using ih
  have h2 : settleUrls (ch.map fun u =>
      Ev.settle i u (loadSingleAsset env u (o.timeout.getD 15000) o).result) = ch := by
    induction ch with
    | nil => rfl
    | cons u us ih => simpa [settleUrls, List.filterMap_cons] using ih
  rw [h1, h2, List.nil_append]

theorem startUrls_batchEventsAux (env : LoadEnv) (o : LoadOptions) :
    ∀ (chs : List (List String)) (n : Nat),
      startUrls (batchEventsAux env o n chs) = chs.flatten := by
  intro chs
  induction chs with
  | nil => intro n; rfl
  | cons ch rest ih =>
    intro n
    simp only [batchEventsAux, List.flatten_cons, startUrls_append,
      startUrls_chunkSegment, ih (n + 1)]

theorem settleUrls_batchEventsAux (env : LoadEnv) (o : LoadOptions) :
    ∀ (chs : List (List String)) (n : Nat),
      settleUrls (batchEventsAux env o n chs) = chs.flatten := by
  intro chs
  induction chs with
  | nil => intro n; rfl
  | cons ch rest ih =>
    intro n
    simp only [batchEventsAux, List.flatten_cons, settleUrls_append,
      settleUrls_chunkSegment, ih (n + 1)]

theorem startUrls_batchEvents (env : LoadEnv) (urls : List String) (o : LoadOptions) :
    startUrls (batchEvents env urls o) = urls := by
  rw [batchEvents, startUrls_batchEventsAux, batchChunks_flatten]

theorem settleUrls_batchEvents (env : LoadEnv) (urls : List String) (o : LoadOptions) :
    settleUrls (batchEvents env urls o) = urls := by
  rw [batchEvents, settleUrls_batchEventsAux, batchChunks_flatten]

/-! ## Lemmas: the idle pop loop -/

theorem drainAux_length :
    ∀ (fuel c processed : Nat) (q : List IdleTask),
      (drainAux fuel c processed q).1.length ≤ c - processed := by
  intro fuel
  induction fuel with
  | zero => intro c processed q; simp [drainAux]
  | succ n ih =>
    intro c processed q
    by_cases h : processed < c
    · cases q with
      | nil => simp [drainAux, h]
      | cons t rest =>
        cases hu : t.urls with
        | nil =>
          simp only [drainAux, if_pos h, hu]
          exact (ih c processed rest).trans (by omega)
        | cons u us =>
          by_cases hue : u = ""
          · simp only [drainAux, if_pos h, hu, if_pos hue]
            exact (ih c processed _).trans (by omega)
          · simp only [drainAux, if_pos h, hu, if_neg hue, List.length_cons]
            have := ih c (processed + 1)
              (if us.isEmpty then rest else rest ++ [⟨us, t.options⟩])
            omega
    · simp [drainAux, h]

theorem drainCycle_length (c : Nat) (q : List IdleTask) :
    (drainCycle c q).1.length ≤ c := by
  have := drainAux_length (queueMeasure q) c 0 q
  simpa [drainCycle] using this

theorem length_le_queueMeasure (q : List IdleTask) : q.length ≤ queueMeasure q := by
  induction q with
  | nil => simp [queueMeasure]
  | cons t rest ih =>
    simp only [queueMeasure, List.map_cons, List.sum_cons, List.length_cons] at ih ⊢
    omega

theorem drainAux_spec :
    ∀ (fuel c processed : Nat) (q : List IdleTask),
      WellFormedQueue q → c - processed ≤ q.length → c - processed ≤ fuel →
      drainAux fuel c processed q =
        ((q.take (c - processed)).map popOf,
          q.drop (c - processed) ++ (q.take (c - processed)).filterMap reEnqueueOf) := by
  intro fuel
  induction fuel with
  | zero =>
    intro c processed q _ _ hfuel
    have hk : c - processed = 0 := Nat.le_zero.mp hfuel
    simp [drainAux, hk]
  | succ n ih =>
    intro c processed q hwf hlen hfuel
    by_cases h : processed < c
    · have hk : c - processed = (c - (processed + 1)) + 1 := by omega
      cases q with
      | nil => simp only [List.length_nil] at hlen; omega
      | cons t rest =>
        obtain ⟨ht1, ht2⟩ := hwf t (List.mem_cons_self _ _)
        cases hu : t.urls with
        | nil => exact absurd hu ht1
        | cons u us =>
          have hune : u ≠ "" := ht2 u (by rw [hu]; exact List.mem_cons_self _ _)
          have hwfr : WellFormedQueue rest := fun t' ht' =>
            hwf t' (List.mem_cons_of_mem _ ht')
          have hpop : popOf t = (u, t.options) := by simp [popOf, hu]
          have hre : reEnqueueOf t =
              if us.isEmpty then none else some ⟨us, t.options⟩ := by
            simp only [reEnqueueOf, hu, List.tail_cons]
          simp only [drainAux, if_pos h, hu, if_neg hune]
          rw [hk, List.take_succ_cons, List.drop_succ_cons, List.map_cons,
            List.filterMap_cons, hpop, hre]
          cases us with
          | nil =>
            have hrec := ih c (processed + 1) rest hwfr (by
              simp only [List.length_cons] at hlen; omega) (by omega)
            simp only [List.isEmpty_nil, if_true]
            rw [hrec]
          | cons u2 us2 =>
            have hwfx : WellFormedQueue (rest ++ [⟨u2 :: us2, t.options⟩]) := by
              intro t' ht'
              rcases List.mem_append.mp ht' with h' | h'
              · exact hwfr t' h'
              · have ht'' : t' = ⟨u2 :: us2, t.options⟩ := by simpa using h'
                subst ht''
                refine ⟨by simp, ?_⟩
                intro u' hu'
                exact ht2 u' (by rw [hu]; exact List.mem_cons_of_mem _ hu')
            have hlen2 : c - (processed + 1) ≤ rest.length := by
              simp only [List.length_cons] at hlen; omega
            have hrec := ih c (processed + 1) (rest ++ [⟨u2 :: us2, t.options⟩]) hwfx
              (by simp only [List.length_append, List.length_cons]; omega) (by omega)
            simp only [List.isEmpty_cons, if_false, Bool.false_eq_true]
            rw [hrec]
            have htake : (rest ++ [IdleTask.mk (u2 :: us2) t.options]).take
                (c - (processed + 1)) = rest.take (c - (processed + 1)) :=
              List.take_append_of_le_length hlen2
            have hdrop : (rest ++ [IdleTask.mk (u2 :: us2) t.options]).drop
                (c - (processed + 1)) =
                rest.drop (c - (processed + 1)) ++ [IdleTask.mk (u2 :: us2) t.options] :=
              List.drop_append_of_le_length hlen2
            rw [htake, hdrop, List.append_assoc, List.singleton_append]
    · have hk : c - processed = 0 := by omega
      simp [drainAux, h, hk]

theorem drainCycle_spec (c : Nat) (q : List IdleTask)
    (hwf : WellFormedQueue q) (hlen : c ≤ q.length) :
    drainCycle c q =
      ((q.take c).map popOf, q.drop c ++ (q.take c).filterMap reEnqueueOf) := by
  have := drainAux_spec (queueMeasure q) c 0 q hwf (by omega)
    ((by omega : c - 0 ≤ c).trans (hlen.trans (length_le_queueMeasure q)))
  simpa [drainCycle] using this

/-! ## Lemmas: the Processing-Flag invariant -/

theorem slotInv_of_down {s : SchedState} (hf : s.flag = false)
    (hp : s.pendingSlot = 0) : SlotInv s :=
  ⟨by omega, by simp [hf, hp]⟩

theorem slotInv_scheduleIdleWork {s : SchedState} (h : SlotInv s) :
    SlotInv (scheduleIdleWork s) := by
  obtain ⟨h1, h2⟩ := h
  unfold scheduleIdleWork
  split_ifs with hg
  · exact ⟨h1, h2⟩
  · simp only [Bool.or_eq_true, not_or, Bool.not_eq_true] at hg
    obtain ⟨hf, -⟩ := hg
    have hps : s.pendingSlot = 0 := by
      have hne : s.pendingSlot ≠ 1 := fun he => by
        rw [h2.mpr he] at hf
        cases hf
      omega
    exact ⟨by simp [hps], by simp [hps]⟩

theorem slotInv_tail (s1 : SchedState) (hf : s1.flag = false)
    (hp : s1.pendingSlot = 0) :
    SlotInv (if s1.queue.isEmpty then s1 else scheduleIdleWork s1) := by
  split_ifs
  · exact slotInv_of_down hf hp
  · exact slotInv_scheduleIdleWork (slotInv_of_down hf hp)

theorem slotInv_slotFire {s : SchedState} {hidden : Bool} {tr : Int}
    (h1 : s.pendingSlot = 1) :
    SlotInv (slotFire s hidden tr).state := by
  unfold slotFire processIdleQueue
  by_cases hh : hidden = true
  · rw [if_pos hh]
    exact slotInv_of_down rfl (by simp [h1])
  · rw [if_neg hh]
    dsimp only
    split
    · exact slotInv_tail ⟨s.queue, false, s.pendingSlot - 1, s.pendingBackoff⟩ rfl
        (by simp [h1])
    · exact slotInv_tail
        ⟨(drainCycle (calculateOptimalBatchSize tr).toNat s.queue).2, false,
          s.pendingSlot - 1, s.pendingBackoff⟩ rfl (by simp [h1])

theorem reachable_slotInv : ∀ s : SchedState, Reachable s → SlotInv s := by
  intro s h
  induction h with
  | init => exact slotInv_of_down rfl rfl
  | enqueue hr hne ih => exact slotInv_scheduleIdleWork ih
  | slot hr hp ih =>
    have h1 := ih.1
    exact slotInv_slotFire (by omega)
  | backoff hr hp ih => exact slotInv_scheduleIdleWork ih

/-! ## Lemmas: error reports name real URLs -/

theorem loadSingleAsset_calls_url (env : LoadEnv) (url : String) (timeoutMs : Nat)
    (o : LoadOptions) :
    ∀ p ∈ (loadSingleAsset env url timeoutMs o).handleErrorCalls, p.2 = url := by
  intro p hp
  unfold loadSingleAsset at hp
  revert hp
  rcases raceResult url (env url) timeoutMs with e | u
  · intro hp
    simp only [List.mem_singleton] at hp
    rw [hp]
  · intro hp
    simp at hp

theorem batchHandleErrorCalls_mem (env : LoadEnv) (urls : List String)
    (o : LoadOptions) :
    ∀ p ∈ batchHandleErrorCalls env urls o, p.2 ∈ urls := by
  intro p hp
  unfold batchHandleErrorCalls at hp
  rw [List.mem_flatten] at hp
  obtain ⟨l, hl, hpl⟩ := hp
  rw [List.mem_map] at hl
  obtain ⟨tr, htr, rfl⟩ := hl
  rw [List.mem_flatten] at htr
  obtain ⟨chTr, hchTr, htr2⟩ := htr
  unfold loadAssetsBatch at hchTr
  rw [List.mem_map] at hchTr
  obtain ⟨ch, hch, rfl⟩ := hchTr
  rw [List.mem_map] at htr2
  obtain ⟨u, hu, rfl⟩ := htr2
  rw [loadSingleAsset_calls_url env u (o.timeout.getD 15000) o p hpl]
  have hm : u ∈ (batchChunks o urls).flatten := List.mem_flatten.mpr ⟨ch, hch, hu⟩
  rwa [batchChunks_flatten] at hm

/-! ## Lemmas: the validation predicate -/

theorem resolveResourceUrl_str (s : String) (h0 : s ≠ "") :
    resolveResourceUrl (.str s) =
      if validDescriptorCode (jsTrim s) then some (jsTrim s) else none := by
  unfold resolveResourceUrl validDescriptorCode hasRestrictedCharset
  simp only [if_neg h0]
  generalize jsTrim s = t
  by_cases h1 : t = ""
  · subst h1
    decide
  · simp only [if_neg h1]
    cases hD : isDangerousScheme t <;>
      cases hH : isAbsoluteHttpUrl t <;>
      cases hS : containsSchemeSep t <;>
      cases hC : (!t.data.isEmpty && t.data.all isAllowedUrlChar) <;>
      simp [hD, hH, hS, hC]

theorem resolveResourceUrl_eq_code (r : ResourceInput) :
    resolveResourceUrl r =
      match r with
      | .nonString => none
      | .str s => if validDescriptorCode (jsTrim s) then some (jsTrim s) else none := by
  cases r with
  | nonString => rfl
  | str s =>
    by_cases h0 : s = ""
    · subst h0
      decide
    · exact resolveResourceUrl_str s h0

/-! # Claim theorems -/

/-- Claim C1: a load whose future neither resolves nor rejects within
`timeoutMs` should produce exactly one TimeoutFailure report (one diagnostic
log, at most one onError invocation) under both strategies. Evaluating the
embedding at such a load shows the immediate strategy (loadAssetsBatch)
reports it exactly once, but the idle strategy's fire-and-forget dispatch
reports it twice: once inside loadSingleAsset's own catch, and once more in
the `.catch(e => handleError(e, url, options.onError))` handler that
processIdleQueue attaches to the rethrown rejection. -/
theorem C1_timeout_report_counts :
    settlesWithin (envNever "a.jpg") 15000 = false ∧
    (loadSingleAsset envNever "a.jpg" 15000 oEx).handleErrorCalls =
      [(ErrorV.timeoutErr "a.jpg", "a.jpg")] ∧
    batchHandleErrorCalls envNever ["a.jpg"] oEx =
      [(ErrorV.timeoutErr "a.jpg", "a.jpg")] ∧
    idleDispatch envNever "a.jpg" oEx =
      [(ErrorV.timeoutErr "a.jpg", "a.jpg"), (ErrorV.timeoutErr "a.jpg", "a.jpg")] :=
  ⟨rfl, rfl, rfl, rfl⟩

/-- Claim C2, counterexample: a cycle with candidate count 2 over a queue holding
a single Task Group with two URLs pops both URLs from that one distinct
group, so "at most one URL is popped per distinct Task Group per cycle" is
false as stated. -/
theorem C2_counterexample :
    [IdleTask.mk ["a", "b"] oEx].length = 1 ∧
    (drainCycle 2 [IdleTask.mk ["a", "b"] oEx]).1 = [("a", oEx), ("b", oEx)] ∧
    (drainCycle 2 [IdleTask.mk ["a", "b"] oEx]).1.length = 2 :=
  ⟨rfl, rfl, rfl⟩

/-- Claim C2, amended: in every cycle with candidate count `c`, at most `c`
URLs are popped in total; and whenever the queue holds at least `c` groups,
the cycle visits exactly the first `c` groups in FIFO order, pops one URL
from each, and re-appends each group whose urls remain non-empty to the tail
(after the untouched groups), never to the front. With fewer than `c` groups
a re-appended group is revisited in the same cycle and can supply more than
one URL. -/
theorem C2_cycle_pops (c : Nat) (q : List IdleTask) :
    (drainCycle c q).1.length ≤ c ∧
    (WellFormedQueue q → c ≤ q.length →
      drainCycle c q =
        ((q.take c).map popOf, q.drop c ++ (q.take c).filterMap reEnqueueOf)) :=
  ⟨drainCycle_length c q, fun hwf hlen => drainCycle_spec c q hwf hlen⟩

theorem C2_cycle_pops_witness :
    (drainCycle 1 [IdleTask.mk ["a"] oEx]).1.length ≤ 1 ∧
    drainCycle 1 [IdleTask.mk ["a"] oEx] = ([("a", oEx)], []) := by
  have hwf : WellFormedQueue [IdleTask.mk ["a"] oEx] := by
    intro t ht
    simp only [List.mem_singleton] at ht
    subst ht
    refine ⟨by simp, ?_⟩
    intro u hu
    simp only [List.mem_singleton] at hu
    subst hu
    decide
  have h := C2_cycle_pops 1 [IdleTask.mk ["a"] oEx]
  refine ⟨h.1, ?_⟩
  have h2 := h.2 hwf (by simp)
  simpa [popOf, reEnqueueOf] using h2

/-- Claim C3: for every input (single string or array, any option record, any
fetch behaviour, any scheduler state), loadResources returns normally: the
translation produces no escaping exception, regardless of how many
individual loads fail. -/
theorem C3_loadResources_never_throws (res : ResourceOrList)
    (o : LoadResourcesOptions) (env : LoadEnv) (s : SchedState) :
    ∃ out, loadResources res o env s = Except.ok out := by
  unfold loadResources
  dsimp only
  split
  · exact ⟨_, rfl⟩
  · cases o.strategy.getD .immediate
    · exact ⟨_, rfl⟩
    · exact ⟨_, rfl⟩

/-- Claim C4: for every integer batchSize `B` the immediate strategy's effective
concurrency is `min (max B 1) 2`; the chunking is a consecutive,
order-preserving partition into non-empty chunks of at most that size; and a
5-element list with batchSize 5 runs as exactly the three chunks of sizes
2, 2, 1. -/
theorem C4_concurrency_and_chunks :
    (∀ B : Int, getOptimalBatchSize B = min (max B 1) 2) ∧
    (∀ (o : LoadOptions) (urls : List String),
      (batchChunks o urls).flatten = urls ∧
      ∀ ch ∈ batchChunks o urls, ch ≠ [] ∧ ch.length ≤ effectiveBatchSize o) ∧
    (∀ (a b c d e : String) (t : Option Nat) (oe : Option Callback),
      batchChunks ⟨some 5, t, oe⟩ [a, b, c, d, e] = [[a, b], [c, d], [e]]) := by
  refine ⟨getOptimalBatchSize_eq_min_max, ?_, ?_⟩
  · intro o urls
    exact ⟨batchChunks_flatten o urls, fun ch hch =>
      chunkListAux_mem _ (one_le_effectiveBatchSize o) _ _ ch hch⟩
  · intro a b c d e t oe
    rfl

theorem C4_witness :
    ["x", "x"] ≠ [] ∧ ["x", "x"].length ≤ effectiveBatchSize oEx2 :=
  (C4_concurrency_and_chunks.2.1 oEx2 ["x", "x", "x"]).2 ["x", "x"] (by decide)

/-- Claim C5: within one loadAssetsBatch invocation, every settlement event of
chunk `i` precedes every launch event of any later chunk `j > i` in the
execution trace; and for every fetch behaviour the launched and settled URL
sequences both equal the full input list — one chunk member's failure neither
cancels its siblings nor prevents subsequent chunks from running. -/
theorem C5_sequential_isolated (env : LoadEnv) (urls : List String)
    (o : LoadOptions) :
    (∀ (p q : Nat) (ei ej : Ev),
      (batchEvents env urls o).get? p = some ei →
      (batchEvents env urls o).get? q = some ej →
      evIsSettle ei = true → evIsStart ej = true →
      evChunkIdx ei < evChunkIdx ej → p < q) ∧
    startUrls (batchEvents env urls o) = urls ∧
    settleUrls (batchEvents env urls o) = urls := by
  refine ⟨?_, startUrls_batchEvents env urls o, settleUrls_batchEvents env urls o⟩
  intro p q ei ej hp hq hsettle hstart hij
  obtain ⟨hplt, hpget⟩ := List.get?_eq_some.mp hp
  obtain ⟨hqlt, hqget⟩ := List.get?_eq_some.mp hq
  have hpair : List.Pairwise (fun a b => evChunkIdx a ≤ evChunkIdx b)
      (batchEvents env urls o) :=
    batchEventsAux_pairwise env o (batchChunks o urls) 0
  rw [List.pairwise_iff_get] at hpair
  rcases Nat.lt_trichotomy p q with h | h | h
  · exact h
  · exfalso
    subst h
    have heq : ei = ej := by rw [← hpget, ← hqget]
    subst heq
    cases ei <;> simp [evIsSettle, evIsStart] at hsettle hstart
  · exfalso
    have hle := hpair ⟨q, hqlt⟩ ⟨p, hplt⟩ h
    rw [hpget, hqget] at hle
    omega

theorem C5_witness :
    (batchEvents envNever ["a", "b", "c"] oEx2).get? 2 =
      some (Ev.settle 0 "a" (Except.error (ErrorV.timeoutErr "a"))) ∧
    (batchEvents envNever ["a", "b", "c"] oEx2).get? 4 = some (Ev.start 1 "c") ∧
    (2 : Nat) < 4 := by
  refine ⟨rfl, rfl, ?_⟩
  exact (C5_sequential_isolated envNever ["a", "b", "c"] oEx2).1 2 4
    (Ev.settle 0 "a" (Except.error (ErrorV.timeoutErr "a"))) (Ev.start 1 "c")
    rfl rfl rfl rfl (by decide)

/-- Claim C6, counterexample: `mailto:alice@example.com` uses none of the
claim's three shapes (it is not absolute http/https, not protocol-relative,
and its first path segment carries a scheme colon, so it is not a
relative/root-relative path) and avoids the dangerous schemes, so under the
claim's wording it is invalid and must be dropped; yet the code accepts it
(its only separator test is for `://`) and a load for it is attempted. The
claim's "exactly when" characterization of validity is therefore false of
the program. -/
theorem C6_counterexample :
    validDescriptorSpec "mailto:alice@example.com" = false ∧
    isDangerousScheme "mailto:alice@example.com" = false ∧
    resolveResourceUrl (ResourceInput.str "mailto:alice@example.com") =
      some "mailto:alice@example.com" ∧
    startUrls (batchEvents envNever
      (prepareResourcesForLoading [ResourceInput.str "mailto:alice@example.com"])
      oEx) = ["mailto:alice@example.com"] :=
  ⟨rfl, rfl, rfl, rfl⟩

/-- Claim C6, amended: for any input mixing k accepted and m rejected
descriptors, exactly the k accepted ones have loads attempted (in order,
under their trimmed URLs) and the m rejected ones are dropped silently
without invoking onError — where a descriptor is accepted exactly when
(after trimming) it does not use a dangerous scheme (javascript:, data:,
file:, ftp:, blob:) and is either an absolute http/https URL or a reference
containing no `://` separator at all, over the restricted character set.
This acceptance condition is wider than the claim's shape list: scheme-
bearing URLs without `://` (e.g. `mailto:`, `tel:` forms) are also accepted
and loaded. -/
theorem C6_validation_filter (rs : List ResourceInput) (env : LoadEnv)
    (o : LoadOptions) :
    (∀ r : ResourceInput,
      resolveResourceUrl r =
        match r with
        | .nonString => none
        | .str s =>
          if validDescriptorCode (jsTrim s) then some (jsTrim s) else none) ∧
    startUrls (batchEvents env (prepareResourcesForLoading rs) o) =
      rs.filterMap resolveResourceUrl ∧
    (∀ p ∈ batchHandleErrorCalls env (prepareResourcesForLoading rs) o,
      p.2 ∈ rs.filterMap resolveResourceUrl) :=
  ⟨resolveResourceUrl_eq_code,
    startUrls_batchEvents env (prepareResourcesForLoading rs) o,
    batchHandleErrorCalls_mem env (prepareResourcesForLoading rs) o⟩

theorem C6_witness :
    ((ErrorV.timeoutErr "a.jpg", "a.jpg") ∈
      batchHandleErrorCalls envNever (prepareResourcesForLoading rsEx) oEx) ∧
    "a.jpg" ∈ rsEx.filterMap resolveResourceUrl := by
  refine ⟨by decide, ?_⟩
  exact (C6_validation_filter rsEx envNever oEx).2.2
    (ErrorV.timeoutErr "a.jpg", "a.jpg") (by decide)

/-- Claim C7: every failure delivered to handleError is logged first and
unconditionally; when a caller callback is present it is invoked with
`(url, error)`; and a callback that throws is caught and logged —
handleError always returns normally, never re-throwing into scheduler or
loader control flow. -/
theorem C7_error_reporter (e : ErrorV) (url : String) (cb : Option Callback) :
    (∃ r, handleErrorE e url cb = Except.ok r) ∧
    (∀ r, handleErrorE e url cb = Except.ok r →
      r.logs.head? = some (LogEntry.failureLog url e)) ∧
    (∀ f, cb = some f → ∀ r, handleErrorE e url cb = Except.ok r →
      r.callbackCalls = [(url, e)]) ∧
    (cb = none → ∀ r, handleErrorE e url cb = Except.ok r →
      r.callbackCalls = []) ∧
    (∀ f, cb = some f → f url e = CbResult.threw →
      ∀ r, handleErrorE e url cb = Except.ok r →
        LogEntry.callbackFaultLog ∈ r.logs) := by
  cases cb with
  | none =>
    refine ⟨⟨_, rfl⟩, ?_, ?_, ?_, ?_⟩
    · intro r hr
      injection hr with h
      subst h
      rfl
    · intro f hf
      simp at hf
    · intro _ r hr
      injection hr with h
      subst h
      rfl
    · intro f hf
      simp at hf
  | some f =>
    cases hfr : f url e with
    | ok =>
      have he : handleErrorE e url (some f) =
          Except.ok ⟨[.failureLog url e], [(url, e)]⟩ := by
        simp only [handleErrorE, hfr]
      refine ⟨⟨_, he⟩, ?_, ?_, ?_, ?_⟩
      · intro r hr
        rw [he] at hr
        injection hr with h
        subst h
        rfl
      · intro g hg r hr
        rw [he] at hr
        injection hr with h
        subst h
        rfl
      · intro hnone
        simp at hnone
      · intro g hg hthrew r hr
        injection hg with hg2
        subst hg2
        rw [hfr] at hthrew
        simp at hthrew
    | threw =>
      have he : handleErrorE e url (some f) =
          Except.ok ⟨[.failureLog url e, .callbackFaultLog], [(url, e)]⟩ := by
        simp only [handleErrorE, hfr]
      refine ⟨⟨_, he⟩, ?_, ?_, ?_, ?_⟩
      · intro r hr
        rw [he] at hr
        injection hr with h
        subst h
        rfl
      · intro g hg r hr
        rw [he] at hr
        injection hr with h
        subst h
        rfl
      · intro hnone
        simp at hnone
      · intro g hg hthrew r hr
        rw [he] at hr
        injection hr with h
        subst h
        simp

theorem C7_witness :
    LogEntry.callbackFaultLog ∈
      [LogEntry.failureLog "x" (ErrorV.loadFail "x"), LogEntry.callbackFaultLog] := by
  have h := (C7_error_reporter (ErrorV.loadFail "x") "x"
    (some fun _ _ => CbResult.threw)).2.2.2.2
  exact h (fun _ _ => CbResult.threw) rfl rfl
    ⟨[LogEntry.failureLog "x" (ErrorV.loadFail "x"), LogEntry.callbackFaultLog],
      [("x", ErrorV.loadFail "x")]⟩ rfl

/-- Claim C8: every reachable scheduler state satisfies the Processing-Flag
invariant: at most one idle slot (or fallback timer) request is outstanding,
and the flag is up exactly while one is — so a slot is only ever requested
with the flag freshly set, and the flag is cleared exactly once on every
exit path of a processing cycle (hidden-page deferral and zero-candidate
path included); otherwise the biconditional would fail at the resulting
state. -/
theorem C8_flag_invariant (s : SchedState) (h : Reachable s) : SlotInv s :=
  reachable_slotInv s h

theorem C8_witness : SlotInv (enqueueIdle initState (IdleTask.mk ["a"] oEx)) :=
  C8_flag_invariant _ (Reachable.enqueue Reachable.init (by simp))

/-- Claim C9: a processing cycle that fires while the page-visibility signal
reports hidden launches zero loads, clears the flag (state → Idle), leaves
the queue untouched, requests no new slot itself, and schedules exactly one
backoff timer with the fixed 1000 ms delay; when that backoff timer fires it
requests a slot only when the queue is non-empty (and no cycle is already
pending). -/
theorem C9_hidden_cycle :
    HIDDEN_RETRY_DELAY = 1000 ∧
    (∀ (s : SchedState) (tr : Int),
      (slotFire s true tr).dispatched = [] ∧
      (slotFire s true tr).backoffTimers = [HIDDEN_RETRY_DELAY] ∧
      (slotFire s true tr).state =
        ⟨s.queue, false, s.pendingSlot - 1, s.pendingBackoff + 1⟩) ∧
    (∀ s2 : SchedState, s2.queue = [] →
      backoffFire s2 = ⟨s2.queue, s2.flag, s2.pendingSlot, s2.pendingBackoff - 1⟩) ∧
    (∀ s2 : SchedState, s2.flag = false → s2.queue ≠ [] →
      backoffFire s2 = ⟨s2.queue, true, s2.pendingSlot + 1, s2.pendingBackoff - 1⟩) := by
  refine ⟨rfl, fun s tr => ⟨rfl, rfl, rfl⟩, ?_, ?_⟩
  · intro s2 h
    unfold backoffFire scheduleIdleWork
    rw [if_pos]
    simp [h]
  · intro s2 hf hq
    unfold backoffFire scheduleIdleWork
    rw [if_neg]
    simp [hf, List.isEmpty_iff, hq]

theorem C9_witness :
    (slotFire initState true 0).dispatched = [] ∧
    backoffFire initState = ⟨[], false, 0, 0⟩ ∧
    backoffFire (SchedState.mk [IdleTask.mk ["a"] oEx] false 0 1) =
      ⟨[IdleTask.mk ["a"] oEx], true, 1, 0⟩ := by
  refine ⟨(C9_hidden_cycle.2.1 initState 0).1, ?_, ?_⟩
  · have h := C9_hidden_cycle.2.2.1 initState rfl
    simpa [initState] using h
  · have h := C9_hidden_cycle.2.2.2 (SchedState.mk [IdleTask.mk ["a"] oEx] false 0 1)
      rfl (by simp)
    simpa using h

/-- Claim C10: entries are trimmed before validation: non-strings and entries
whose trimmed form is empty are dropped silently with no load attempted, and
every accepted entry is loaded under its trimmed URL (the attempted URL list
is exactly the list of accepted trimmed strings). -/
theorem C10_trimming :
    resolveResourceUrl ResourceInput.nonString = none ∧
    prepareResourcesForLoading [ResourceInput.nonString] = [] ∧
    (∀ s : String, jsTrim s = "" →
      resolveResourceUrl (ResourceInput.str s) = none) ∧
    (∀ s u, resolveResourceUrl (ResourceInput.str s) = some u → u = jsTrim s) ∧
    (∀ (rs : List ResourceInput) (env : LoadEnv) (o : LoadOptions),
      startUrls (batchEvents env (prepareResourcesForLoading rs) o) =
        rs.filterMap resolveResourceUrl) := by
  refine ⟨rfl, rfl, ?_, ?_, ?_⟩
  · intro s h
    rw [resolveResourceUrl_eq_code (ResourceInput.str s)]
    show (if validDescriptorCode (jsTrim s) then some (jsTrim s) else none) = none
    rw [h]
    decide
  · intro s u h
    rw [resolveResourceUrl_eq_code (ResourceInput.str s)] at h
    have h2 : (if validDescriptorCode (jsTrim s) then some (jsTrim s) else none) =
        some u := h
    by_cases hv : validDescriptorCode (jsTrim s)
    · rw [if_pos hv] at h2
      injection h2 with h3
      exact h3.symm
    · rw [if_neg hv] at h2
      simp at h2
  · intro rs env o
    exact startUrls_batchEvents env (prepareResourcesForLoading rs) o

theorem C10_witness :
    resolveResourceUrl (ResourceInput.str "   ") = none ∧
    "a.jpg" = jsTrim "  a.jpg  " :=
  ⟨C10_trimming.2.2.1 "   " rfl,
    C10_trimming.2.2.2.1 "  a.jpg  " "a.jpg" rfl⟩

end IdleResourceLoader
